import Mathlib

/-!
Verification development for the sprint-rowery catalog scraper
(`parser.py`, with `main.py` as a minimal listing-only variant).

The Python source is shallowly embedded below.  External collaborators
(the HTTP transport with JS rendering, `urllib.parse.urljoin` /
`urlparse().path`, and `json.loads`) are passed in as explicit function
parameters bundled in `Env`; everything the repository itself computes
(whitespace normalization, the selector cascades, the listing cascade,
deduplication, pagination, the retry loop, persistence) is translated
definition by definition from `parser.py`.
-/

namespace Scraper

/-- The space character (code point 32), named to use it uniformly below. -/
def spaceChar : Char := Char.ofNat 32

/-- Whitespace class used by Python's regex class backslash-s and by
`str.strip()` on the ASCII range: space, tab, newline, carriage return,
vertical tab, form feed.  (Python additionally treats some non-ASCII
code points as whitespace; the development only relies on the class
being decidable and containing the space character.) -/
def pyIsSpace (c : Char) : Bool :=
  c == spaceChar || c == Char.ofNat 9 || c == Char.ofNat 10 ||
  c == Char.ofNat 13 || c == Char.ofNat 11 || c == Char.ofNat 12

/-- Model of the regex substitution at parser.py:53 replacing every maximal
whitespace run by a single space: the `inRun` flag records whether we are
inside a whitespace run whose first character was already emitted. -/
def collapseWs : List Char → Bool → List Char
  | [], _ => []
  | c :: rest, inRun =>
    if pyIsSpace c then
      if inRun then collapseWs rest true
      else spaceChar :: collapseWs rest true
    else c :: collapseWs rest false

/-- Drop trailing whitespace (the right half of Python `str.strip()`). -/
def dropTrailingWs : List Char → List Char
  | [] => []
  | c :: rest =>
    match dropTrailingWs rest with
    | [] => if pyIsSpace c then [] else [c]
    | r => c :: r

/-- Python `str.strip()`: drop leading, then trailing whitespace. -/
def stripWs (l : List Char) : List Char :=
  dropTrailingWs (l.dropWhile pyIsSpace)

/-- Character-list core of `norm` (parser.py:52-53). -/
def normChars (l : List Char) : List Char :=
  stripWs (collapseWs l false)

/-- parser.py:52-53 — `norm(text)`: collapse whitespace runs to one space,
then strip both ends.  Callers pass `""` for a missing element, modelling
`text or ""`. -/
def norm (s : String) : String :=
  String.mk (normChars s.data)

/-- Python `str.strip()` on its own (used for the JSON-LD price). -/
def stripStr (s : String) : String :=
  String.mk (stripWs s.data)

/-- A node of the queryable document tree produced by the HTML parser
collaborator: its text content, its attribute dictionary, and its
`find` capability mapping a CSS selector to the list of matching
descendant nodes (requests_html `Element.find`). -/
inductive Node where
  | mk (text : String) (attrs : List (String × String)) (find : String → List Node)

/-- Text content of a node (`el.text`). -/
def Node.text : Node → String
  | .mk t _ _ => t

/-- Attribute dictionary of a node (`el.attrs`). -/
def Node.attrs : Node → List (String × String)
  | .mk _ a _ => a

/-- Selector query on a node (`el.find(sel)`). -/
def Node.find : Node → String → List Node
  | .mk _ _ f => f

/-- `el.find(sel, first=True)`: first match or `None`. -/
def Node.findFirst (n : Node) (sel : String) : Option Node :=
  (n.find sel).head?

/-- `el.attrs.get(key)`: attribute lookup, `None` if absent. -/
def Node.getAttr (n : Node) (k : String) : Option String :=
  ((n.attrs).find? (fun kv => kv.1 == k)).map (fun kv => kv.2)

/-- A leaf node with no descendants, for building concrete documents. -/
def leafNode (t : String) (attrs : List (String × String)) : Node :=
  Node.mk t attrs (fun _ => [])

/-- Python `a or b` specialised to optional values (`None` is falsy,
any element object is truthy). -/
def pyOr {α : Type} (a b : Option α) : Option α :=
  match a with
  | some x => some x
  | none => b

/-- Python `a or b` on optional strings where the empty string is also
falsy (used for attribute chains like `attrs.get("src") or ...`). -/
def truthyAttr (o : Option String) : Option String :=
  match o with
  | some s => if s = "" then none else some s
  | none => none

/-- Values produced by the `json.loads` collaborator.  A number carries
its Python `str()` rendering together with whether it is zero (the only
two facts about numbers the source consumes: stringification and
truthiness). -/
inductive Json where
  | null
  | bool (b : Bool)
  | num (rendering : String) (isZero : Bool)
  | str (s : String)
  | arr (elems : List Json)
  | obj (fields : List (String × Json))

/-- `dict.get(k)` on a parsed JSON object. -/
def jget (fields : List (String × Json)) (k : String) : Option Json :=
  (fields.find? (fun kv => kv.1 == k)).map (fun kv => kv.2)

mutual
/-- Python `repr` of a JSON value (string quoting is approximated:
escapes inside string payloads are not re-encoded). -/
def jrepr : Json → String
  | Json.null => "None"
  | Json.bool true => "True"
  | Json.bool false => "False"
  | Json.num r _ => r
  | Json.str s => "\x27" ++ s ++ "\x27"
  | Json.arr xs => "[" ++ jreprElems xs ++ "]"
  | Json.obj fs => "\x7b" ++ jreprFields fs ++ "\x7d"

/-- Comma-joined reprs of array elements. -/
def jreprElems : List Json → String
  | [] => ""
  | [x] => jrepr x
  | x :: xs => jrepr x ++ ", " ++ jreprElems xs

/-- Comma-joined reprs of object fields. -/
def jreprFields : List (String × Json) → String
  | [] => ""
  | [kv] => "\x27" ++ kv.1 ++ "\x27: " ++ jrepr kv.2
  | kv :: kvs => "\x27" ++ kv.1 ++ "\x27: " ++ jrepr kv.2 ++ ", " ++ jreprFields kvs
end

/-- Python `str()` of a JSON value: identity on strings, `repr` otherwise. -/
def pyStr : Json → String
  | Json.str s => s
  | j => jrepr j

/-- Python truthiness of a JSON value. -/
def jsonTruthy : Json → Bool
  | Json.null => false
  | Json.bool b => b
  | Json.num _ z => !z
  | Json.str s => !(s == "")
  | Json.arr xs => !xs.isEmpty
  | Json.obj fs => !fs.isEmpty

/-- parser.py:190 — `data.get("@type") in ("Product", "Bike", "Thing")`. -/
def typeIsProduct (o : Option Json) : Bool :=
  match o with
  | some (Json.str t) => t == "Product" || t == "Bike" || t == "Thing"
  | _ => false

/-- Outcome of `render(url)` as seen by its callers: a rendered document,
`None` after exhausted retries, or an external interrupt
(`KeyboardInterrupt` is a `BaseException`, so `except Exception` at
parser.py:88 does not catch it and it propagates out of `render`). -/
inductive FetchOutcome where
  | ok (root : Node)
  | fail
  | intr

/-- The collaborators the engine is parameterised over: the fetching
pipeline (`render`), `json.loads`, `urllib.parse.urljoin`, and the
`path` component extraction of `urllib.parse.urlparse`. -/
structure Env where
  fetch : String → FetchOutcome
  jsonLoads : String → Option Json
  urljoin : String → String → String
  urlPath : String → String

/-- parser.py:23. -/
def BASE_URL : String := "https://sprint-rowery.pl"

/-- parser.py:24. -/
def START_PATH : String := "/rowery"

/-- parser.py:26. -/
def RETRIES : Nat := 3

/-- parser.py:29 — `0` means no page limit. -/
def MAX_PAGES : Nat := 0

/-- Python `s.startswith(pre)` (character-list computation of
`String.startsWith`). -/
def strStartsWith (s pre : String) : Bool :=
  pre.data.isPrefixOf s.data

/-- Python `s.lower()` (character-list computation of `String.toLower`). -/
def strToLower (s : String) : String :=
  String.mk (s.data.map Char.toLower)

/-- parser.py:49-50 — `abs_url`. -/
def abs_url (env : Env) (href : String) : String :=
  if strStartsWith href "http" then href else env.urljoin BASE_URL href

/-- Substring test (`needle in hay` for Python strings). -/
def isSubstring (needle hay : List Char) : Bool :=
  needle.isPrefixOf hay ||
    (match hay with
     | [] => false
     | _ :: t => isSubstring needle t)

/-- `k in path` on strings. -/
def strContains (hay needle : String) : Bool :=
  isSubstring needle.data hay.data

/-- parser.py:55-59 — `is_product_link`. -/
def is_product_link (env : Env) (href : String) : Bool :=
  if href == "" || strStartsWith href "#" || strStartsWith href "mailto:" ||
      strStartsWith href "tel:" then
    false
  else
    strContains (strToLower (env.urlPath href)) "/rower" ||
      strContains (strToLower (env.urlPath href)) "/produkt" ||
      strContains (strToLower (env.urlPath href)) "/product"

/-- The final record type (parser.py:38-45). -/
structure Product where
  title : String
  price : String
  link : String
  image : String
  category : String
  description : String
deriving DecidableEq

/-- parser.py:96-103 — the product-tile selector cascade. -/
def LIST_SELECTORS : List String :=
  [".product-miniature", "article.product", "li.product",
   "div.product", "div.js-product", "[data-id-product]"]

/-- parser.py:123-125 and 133-135 — append a candidate href after
absolutising, keeping it only when truthy, product-like, and not yet
collected (within-page dedup preserving first-seen order). -/
def addLink (env : Env) (acc : List String) (rawHref : String) : List String :=
  let href := abs_url env rawHref
  if !(href == "") && is_product_link env href && !(acc.contains href) then
    acc ++ [href]
  else acc

/-- parser.py:120-126 — inner loop over the cards of one selector:
take each card's first `a[href]` descendant, skip cards without one. -/
def collectCardLinks (env : Env) (links : List String) (cards : List Node) : List String :=
  cards.foldl
    (fun acc c =>
      match (c.find "a[href]").head? with
      | none => acc
      | some a => addLink env acc ((a.getAttr "href").getD ""))
    links

/-- parser.py:114-135 — the link-discovery part of `parse_list`: try the
tile selectors in order, stopping at the first that yields links
(`if links: break`; a selector with cards but no valid links falls
through to the next); if none yields any, plan B scans every `a[href]`
on the page through the same filter. -/
def listLinks (env : Env) (root : Node) : List String :=
  let links :=
    LIST_SELECTORS.foldl
      (fun links sel =>
        if !links.isEmpty then links
        else if (root.find sel).isEmpty then links
        else collectCardLinks env links (root.find sel))
      []
  if links.isEmpty then
    (root.find "a[href]").foldl
      (fun acc a => addLink env acc ((a.getAttr "href").getD "")) links
  else links

/-- parser.py:137-139 — the pagination lookup of `parse_list`. -/
def nextUrlOfDoc (env : Env) (root : Node) : Option String :=
  let next_el := pyOr (root.findFirst "a[rel=\x22next\x22]")
    (root.findFirst ".pagination-next a, .next a")
  match next_el with
  | some el =>
    match el.getAttr "href" with
    | some h => if h = "" then none else some (abs_url env h)
    | none => none
  | none => none

/-- parser.py:105-142 — `parse_list(url, page_idx)`: fetch the listing
page (a propagating interrupt is modelled as `Except.error`), return
`([], None)` when `render` failed, otherwise the discovered links and
the optional next-page URL.  (`page_idx`, debug saves and prints are
side effects with no bearing on the returned value and are omitted.) -/
def parse_list (env : Env) (url : String) :
    Except Unit (List String × Option String) :=
  match env.fetch url with
  | FetchOutcome.intr => Except.error ()
  | FetchOutcome.fail => Except.ok ([], none)
  | FetchOutcome.ok root => Except.ok (listLinks env root, nextUrlOfDoc env root)

/-- parser.py:154-157 — the title selector cascade of `parse_product`. -/
def titleOfDoc (root : Node) : String :=
  let title_el := pyOr (pyOr (root.findFirst "h1.product-name")
    (root.findFirst "h1[itemprop=\x27name\x27]")) (root.findFirst "h1")
  norm (match title_el with | some el => el.text | none => "")

/-- parser.py:159-163 — the price selector cascade of `parse_product`. -/
def priceOfDoc (root : Node) : String :=
  let price_el := pyOr (pyOr (pyOr (root.findFirst ".current-price")
    (root.findFirst ".product-prices .price"))
    (root.findFirst "span[itemprop=\x27price\x27]"))
    (root.findFirst ".price")
  norm (match price_el with | some el => el.text | none => "")

/-- parser.py:165-172 — the image extraction of `parse_product`:
the element cascade, then the attribute chain
`src or content or data-src or ""`, absolutised. -/
def imageOfDoc (env : Env) (root : Node) : String :=
  let img_el := pyOr (pyOr (pyOr (root.findFirst "img.js-qv-product-cover")
    (root.findFirst ".product-cover img"))
    (root.findFirst "img[itemprop=\x27image\x27]"))
    (root.findFirst "meta[property=\x22og:image\x22]")
  match img_el with
  | none => ""
  | some el =>
    let image := pyOr (pyOr (truthyAttr (el.getAttr "src"))
      (truthyAttr (el.getAttr "content"))) (truthyAttr (el.getAttr "data-src"))
    abs_url env (image.getD "")

/-- The breadcrumb selector of parser.py:174. -/
def crumbSel : String :=
  ".breadcrumbs a, ol.breadcrumbs a, ul.breadcrumbs a, nav.breadcrumb a"

/-- A default node (never observed: only used as the `Option.getD`
default under an index known to be in bounds). -/
def defaultNode : Node := leafNode "" []

/-- parser.py:174-177 — the breadcrumb handling of `parse_product`:
with at least two crumbs the category is the text of `crumbs[-2]`
(the second-to-last crumb), with exactly one crumb it is that crumb's
text, with none it stays empty. -/
def categoryOfDoc (root : Node) : String :=
  let crumbs := root.find crumbSel
  if crumbs.isEmpty then ""
  else
    norm (((if 2 ≤ crumbs.length then crumbs[crumbs.length - 2]?
            else crumbs[crumbs.length - 1]?).getD defaultNode).text)

/-- parser.py:179-180 — the description extraction of `parse_product`. -/
def descriptionOfDoc (root : Node) : String :=
  let desc_el := root.findFirst "#description, .product-description, [itemprop=\x27description\x27]"
  norm (match desc_el with | some el => el.text | none => "")

/-- parser.py:184-198 — the body of the JSON-LD fallback loop for one
`script[type="application/ld+json"]` element, threading the
`(title, price)` pair.  A `json.loads` failure is `none` (the block is
skipped); `title = title or norm(data.get("name") or "")` raises
`TypeError` inside `norm` when the name value is truthy but not a
string, which aborts the whole block before any assignment
(`except Exception: pass`). -/
def ldStep (jsonLoads : String → Option Json) (st : String × String) (sc : Node) :
    String × String :=
  match jsonLoads sc.text with
  | none => st
  | some d0 =>
    let data := match d0 with
      | Json.arr (x :: _) => x
      | _ => d0
    match data with
    | Json.obj kvs =>
      if typeIsProduct (jget kvs "@type") then
        let title := st.1
        let price := st.2
        let titleRes : Option String :=
          if title = "" then
            match jget kvs "name" with
            | none => some (norm "")
            | some v =>
              if jsonTruthy v then
                match v with
                | Json.str s => some (norm s)
                | _ => none
              else some (norm "")
          else some title
        match titleRes with
        | none => st
        | some title2 =>
          let offers :=
            match jget kvs "offers" with
            | some (Json.arr (x :: _)) => some x
            | o => o
          let price2 :=
            match offers with
            | some (Json.obj okvs) =>
              if price = "" then stripStr (pyStr ((jget okvs "price").getD (Json.str "")))
              else price
            | _ => price
          (title2, price2)
      else st
    | _ => st

/-- The JSON-LD script selector of parser.py:184. -/
def ldSel : String := "script[type=\x22application/ld+json\x22]"

/-- parser.py:184-198 — the fold of `ldStep` over every JSON-LD block. -/
def ldFallback (env : Env) (root : Node) (tp : String × String) : String × String :=
  (root.find ldSel).foldl (ldStep env.jsonLoads) tp

/-- parser.py:154-198 — the final `(title, price)` pair of
`parse_product`: the structural cascades, then the JSON-LD fallback
guarded by `if not title or not price`. -/
def finalTP (env : Env) (root : Node) : String × String :=
  let title := titleOfDoc root
  let price := priceOfDoc root
  if title = "" ∨ price = "" then ldFallback env root (title, price)
  else (title, price)

/-- parser.py:146-204, pure part — everything `parse_product` computes
from a successfully rendered document, ending with the required-title
guard of parser.py:200 returning `None` for an empty title. -/
def productFromDoc (env : Env) (root : Node) (url : String) : Option Product :=
  let tp := finalTP env root
  if tp.1 = "" then none
  else some
    { title := tp.1
      price := tp.2
      link := url
      image := imageOfDoc env root
      category := categoryOfDoc root
      description := descriptionOfDoc root }

/-- parser.py:146-204 — `parse_product(url, idx)`: fetch, then extract;
`None` when the fetch failed or the title is empty; a propagating
interrupt is `Except.error`.  (`idx` only controls debug saving.) -/
def parse_product (env : Env) (url : String) : Except Unit (Option Product) :=
  match env.fetch url with
  | FetchOutcome.intr => Except.error ()
  | FetchOutcome.fail => Except.ok none
  | FetchOutcome.ok root => Except.ok (productFromDoc env root url)

/-- parser.py:228-233 — the per-page enrichment loop of `crawl`: visit
each new link in order, append the parsed product when one is returned,
skip silently (after the `[WARN]` print inside `parse_product`) when
`None`; an interrupt raised inside `parse_product` (or during the
`time.sleep` between items, which propagates identically) aborts the
whole loop exceptionally. -/
def enrichLoop (env : Env) : List String → List Product → Except Unit (List Product)
  | [], items => Except.ok items
  | u :: rest, items =>
    match parse_product env u with
    | Except.error _ => Except.error ()
    | Except.ok none => enrichLoop env rest items
    | Except.ok (some p) => enrichLoop env rest (items ++ [p])

/-- Result of a terminating crawl: the accumulated records and the list
of listing-page URLs for which a fetch was attempted. -/
abbrev CrawlRes := Except Unit (List Product × List String)

/-- parser.py:208-243 — the `while page_url:` loop of `crawl`, with the
loop state (current page counter, current page URL, the global seen set,
the accumulated items) made explicit, a fuel argument bounding the
number of iterations the model is willing to unfold (`none` = the bound
was hit before the loop ended), and the fetched listing URLs recorded.
An empty link list breaks the loop; new links are those not in `seen`;
all of them enter `seen` before enrichment; the dead `MAX_PAGES` guard
(parser.py:235, with `MAX_PAGES = 0`) is kept as in the source; the
next iteration uses `next_url`. -/
def crawlLoop (env : Env) :
    Nat → Nat → Option String → List String → List Product → List String →
      Option CrawlRes
  | _, _, none, _, items, visited => some (Except.ok (items, visited))
  | 0, _, some _, _, _, _ => none
  | fuel + 1, page, some pageUrl, seen, items, visited =>
    if pageUrl = "" then some (Except.ok (items, visited))
    else
      let visited2 := visited ++ [pageUrl]
      match parse_list env pageUrl with
      | Except.error _ => some (Except.error ())
      | Except.ok (links, next_url) =>
        if links.isEmpty then some (Except.ok (items, visited2))
        else
          let new_links := links.filter (fun u => !(seen.contains u))
          let seen2 := seen ++ new_links
          match enrichLoop env new_links items with
          | Except.error _ => some (Except.error ())
          | Except.ok items2 =>
            if (MAX_PAGES != 0) && decide (MAX_PAGES ≤ page) then
              some (Except.ok (items2, visited2))
            else crawlLoop env fuel (page + 1) next_url seen2 items2 visited2

/-- parser.py:208-243 — `crawl()`: run the page loop from page 1 at
`abs_url(f"{START_PATH}?page={page}")` with empty seen set and items. -/
def crawl (env : Env) (fuel : Nat) : Option CrawlRes :=
  crawlLoop env fuel 1
    (some (abs_url env (START_PATH ++ "?page=" ++ toString (1 : Nat)))) [] [] []

/-- Observable outcome of `main()` (parser.py:246-256): both output
files written with the collected rows and the count reported, or the
empty message with no file written, or an uncaught exception (an
external interrupt propagating out of `crawl`) with no file written. -/
inductive MainResult where
  | saved (rows : List Product)
  | nothingSaved
  | crashed
deriving DecidableEq

/-- Whether a `main` outcome wrote `output.csv`. -/
def writesCsv : MainResult → Bool
  | MainResult.saved _ => true
  | _ => false

/-- Whether a `main` outcome wrote `output.xlsx`. -/
def writesXlsx : MainResult → Bool
  | MainResult.saved _ => true
  | _ => false

/-- parser.py:246-256 — `main()`: run `crawl`; if it returns a
non-empty list, write both files from it and report the count;
if empty, print the empty message; an exception propagating out of
`crawl` (there is no handler in `main`) crashes the process before any
write. -/
def mainModel (env : Env) (fuel : Nat) : Option MainResult :=
  match crawl env fuel with
  | none => none
  | some (Except.error _) => some MainResult.crashed
  | some (Except.ok (products, _)) =>
    if products.isEmpty then some MainResult.nothingSaved
    else some (MainResult.saved products)

/-- Outcome of one attempt inside `render` (parser.py:74-90): either
some exception was raised during `s.get` / `r.html.render` (timeout,
connection reset, ...), or the attempt completed with a status code and
a rendered html text (`r.html.html or ""`). -/
inductive Attempt where
  | exc
  | resp (status : Nat) (html : String)
deriving DecidableEq

/-- Whether a completed attempt satisfies the success check of
parser.py:86 (`r.status_code == 200 and html`). -/
def attemptOk : Attempt → Bool
  | Attempt.exc => false
  | Attempt.resp status html => status == 200 && !(html == "")

/-- Trace of one `render(url)` call: the attempt at which it returned a
response (or `none` when it fell through to `return None`), the number
of `s.get` attempts performed, and the attempt numbers after which
`time.sleep(1.2 * attempt)` ran. -/
structure RenderTrace where
  result : Option Nat
  gets : Nat
  sleeps : List Nat
deriving DecidableEq

/-- parser.py:74-92 — the retry loop of `render`, over an abstract
transport giving each attempt's outcome: a raised exception sleeps
`1.2 * attempt` and retries; a completed response failing the
`status == 200 and html` check retries immediately with no sleep;
the loop runs at most `RETRIES` attempts. -/
def renderGo (tr : Nat → Attempt) (attempt : Nat) :
    Nat → Nat → List Nat → RenderTrace
  | 0, gets, sleeps => ⟨none, gets, sleeps⟩
  | remaining + 1, gets, sleeps =>
    match tr attempt with
    | Attempt.exc => renderGo tr (attempt + 1) remaining (gets + 1) (sleeps ++ [attempt])
    | Attempt.resp status html =>
      if status == 200 && !(html == "") then ⟨some attempt, gets + 1, sleeps⟩
      else renderGo tr (attempt + 1) remaining (gets + 1) sleeps

/-- parser.py:71-92 — `render(url)` as a trace over the transport:
attempts are numbered 1 to `RETRIES` as in `range(1, RETRIES + 1)`. -/
def renderModel (tr : Nat → Attempt) : RenderTrace :=
  renderGo tr 1 RETRIES 0 []

/-! Concrete documents and environments used to instantiate the theorems
below on closed inputs. -/

/-- A listing-page anchor pointing at one product. -/
def anchorW : Node := leafNode "" [("href", "/rower-x")]

/-- A product tile containing `anchorW`. -/
def cardW : Node :=
  Node.mk "" [] (fun s => if s = "a[href]" then [anchorW] else [])

/-- A listing document with one tile and no pagination control. -/
def listDocW : Node :=
  Node.mk "" [] (fun s => if s = ".product-miniature" then [cardW] else [])

/-- A product document with only an `h1.product-name`. -/
def prodDocW : Node :=
  Node.mk "" [] (fun s => if s = "h1.product-name" then [leafNode "Bike X" []] else [])

/-- The URL of listing page 1 under the concatenating `urljoin` below. -/
def pageUrl1 : String := "https://sprint-rowery.pl/rowery?page=1"

/-- The URL of listing page 2. -/
def pageUrl2 : String := "https://sprint-rowery.pl/rowery?page=2"

/-- The absolutised product URL discovered on `listDocW`. -/
def linkW : String := "https://sprint-rowery.pl/rower-x"

/-- A concrete environment: one listing page with one product and no
next link; `urljoin` concatenates and `urlparse().path` is the identity
(adequate for these URLs). -/
def envW : Env where
  fetch := fun u =>
    if u = pageUrl1 then FetchOutcome.ok listDocW
    else if u = linkW then FetchOutcome.ok prodDocW
    else FetchOutcome.fail
  jsonLoads := fun _ => none
  urljoin := fun b h => b ++ h
  urlPath := fun h => h

/-- The record `crawl` produces in `envW`. -/
def productW : Product :=
  { title := "Bike X", price := "", link := linkW, image := "",
    category := "", description := "" }

/-- An environment whose every fetch fails: the crawl collects nothing. -/
def envEmpty : Env where
  fetch := fun _ => FetchOutcome.fail
  jsonLoads := fun _ => none
  urljoin := fun b h => b ++ h
  urlPath := fun h => h

/-- Listing page 1 of the interrupt scenario: one tile plus a `next`
link to page 2. -/
def listDocI : Node :=
  Node.mk "" [] (fun s =>
    if s = ".product-miniature" then [cardW]
    else if s = "a[rel=\x22next\x22]" then [leafNode "" [("href", "/rowery?page=2")]]
    else [])

/-- The interrupt scenario: page 1 enriches one record, then the fetch
of page 2 is hit by an external interrupt. -/
def envI : Env where
  fetch := fun u =>
    if u = pageUrl1 then FetchOutcome.ok listDocI
    else if u = linkW then FetchOutcome.ok prodDocW
    else if u = pageUrl2 then FetchOutcome.intr
    else FetchOutcome.fail
  jsonLoads := fun _ => none
  urljoin := fun b h => b ++ h
  urlPath := fun h => h

/-- An environment with no fetching at all, for document-level facts. -/
def envX : Env where
  fetch := fun _ => FetchOutcome.fail
  jsonLoads := fun _ => none
  urljoin := fun b h => b ++ h
  urlPath := fun h => h

/-- A product page whose breadcrumb trail is Home > A > B > Product. -/
def rootC5 : Node :=
  Node.mk "" [] (fun s =>
    if s = crumbSel then
      [leafNode "Home" [], leafNode "A" [], leafNode "B" [], leafNode "Product" []]
    else if s = "h1.product-name" then [leafNode "T" []]
    else [])

/-- A product page whose breadcrumb query matches exactly one crumb. -/
def rootC9 : Node :=
  Node.mk "" [] (fun s =>
    if s = crumbSel then [leafNode "Solo" []]
    else if s = "h1.product-name" then [leafNode "T" []]
    else [])

/-- A product page with a structural title, no structural price, and a
JSON-LD block declaring both a (different) name and a price. -/
def prodDocLD : Node :=
  Node.mk "" [] (fun s =>
    if s = "h1.product-name" then [leafNode "Real Title" []]
    else if s = ldSel then [leafNode "LD1" []]
    else [])

/-- Environment whose `json.loads` parses the block of `prodDocLD` into
a Product object with `name` and `offers.price`. -/
def envLD : Env where
  fetch := fun _ => FetchOutcome.fail
  jsonLoads := fun s =>
    if s = "LD1" then
      some (Json.obj
        [("@type", Json.str "Product"), ("name", Json.str "LD Name"),
         ("offers", Json.obj [("price", Json.num "123" false)])])
    else none
  urljoin := fun b h => b ++ h
  urlPath := fun h => h

/-! Properties of `norm` (claim C8). -/

/-- Canonical shape of collapsed text: every whitespace character is the
single space character and is followed by a non-whitespace character,
except possibly one space standing alone at the end. -/
inductive WellSpaced : List Char → Prop where
  | nil : WellSpaced []
  | word (c : Char) (h : pyIsSpace c = false) (l : List Char)
      (hl : WellSpaced l) : WellSpaced (c :: l)
  | gap (c : Char) (h : pyIsSpace c = false) (l : List Char)
      (hl : WellSpaced (c :: l)) : WellSpaced (spaceChar :: c :: l)
  | lone : WellSpaced [spaceChar]

/-- The space character is whitespace. -/
theorem pyIsSpace_spaceChar : pyIsSpace spaceChar = true := by decide

/-- The output of the whitespace-collapsing pass is well spaced, and in
run-continuation mode it additionally starts with a non-whitespace
character when non-empty. -/
theorem collapse_wellSpaced (l : List Char) :
    WellSpaced (collapseWs l false) ∧
      (collapseWs l true = [] ∨
        ∃ c t, collapseWs l true = c :: t ∧ pyIsSpace c = false ∧
          WellSpaced (c :: t)) := by
  induction l with
  | nil => exact ⟨WellSpaced.nil, Or.inl rfl⟩
  | cons x r ih =>
    by_cases hx : pyIsSpace x = true
    · constructor
      · have hfalse : collapseWs (x :: r) false = spaceChar :: collapseWs r true := by
          simp [collapseWs, hx]
        rw [hfalse]
        rcases ih.2 with h0 | ⟨c, t, heq, hc, hw⟩
        · rw [h0]; exact WellSpaced.lone
        · rw [heq]; exact WellSpaced.gap c hc t hw
      · have htrue : collapseWs (x :: r) true = collapseWs r true := by
          simp [collapseWs, hx]
        rw [htrue]; exact ih.2
    · have hx' : pyIsSpace x = false := by simpa using hx
      constructor
      · have : collapseWs (x :: r) false = x :: collapseWs r false := by
          simp [collapseWs, hx']
        rw [this]; exact WellSpaced.word x hx' _ ih.1
      · have : collapseWs (x :: r) true = x :: collapseWs r false := by
          simp [collapseWs, hx']
        exact Or.inr ⟨x, collapseWs r false, this, hx',
          WellSpaced.word x hx' _ ih.1⟩

/-- Collapsing is the identity on well-spaced text. -/
theorem collapse_fixpoint : ∀ l : List Char, WellSpaced l → collapseWs l false = l := by
  intro l hl
  induction hl with
  | nil => rfl
  | word c h l hl ih => simp [collapseWs, h, ih]
  | gap c h l hl ih =>
    have hcl : collapseWs (c :: l) false = c :: collapseWs l false := by
      simp [collapseWs, h]
    rw [hcl] at ih
    injection ih with _ h2
    have h1 : collapseWs (spaceChar :: c :: l) false =
        spaceChar :: collapseWs (c :: l) true := by
      simp [collapseWs, pyIsSpace_spaceChar]
    have h3 : collapseWs (c :: l) true = c :: collapseWs l false := by
      simp [collapseWs, h]
    rw [h1, h3, h2]
  | lone => simp [collapseWs, pyIsSpace_spaceChar]

/-- Dropping leading whitespace preserves well-spacedness. -/
theorem dropWhile_wellSpaced : ∀ l : List Char, WellSpaced l →
    WellSpaced (l.dropWhile pyIsSpace) := by
  intro l hl
  induction hl with
  | nil => exact WellSpaced.nil
  | word c h l hl _ =>
    rw [List.dropWhile_cons_of_neg (by simp [h])]
    exact WellSpaced.word c h l hl
  | gap c h l hl _ =>
    rw [List.dropWhile_cons_of_pos (by simp [pyIsSpace_spaceChar]),
      List.dropWhile_cons_of_neg (by simp [h])]
    exact hl
  | lone =>
    rw [List.dropWhile_cons_of_pos (by simp [pyIsSpace_spaceChar])]
    exact WellSpaced.nil

/-- `dropTrailingWs` commutes with a non-whitespace head. -/
theorem dropTrailing_cons_nonspace {c : Char} (h : pyIsSpace c = false)
    (l : List Char) : dropTrailingWs (c :: l) = c :: dropTrailingWs l := by
  cases h' : dropTrailingWs l <;> simp [dropTrailingWs, h, h']

/-- `dropTrailingWs` steps uniformly over a head whose tail does not
strip to nothing. -/
theorem dropTrailing_cons_cons (x : Char) (l : List Char) (y : Char)
    (s : List Char) (h : dropTrailingWs l = y :: s) :
    dropTrailingWs (x :: l) = x :: y :: s := by
  simp [dropTrailingWs, h]

/-- Dropping trailing whitespace preserves well-spacedness. -/
theorem dropTrailing_wellSpaced : ∀ l : List Char, WellSpaced l →
    WellSpaced (dropTrailingWs l) := by
  intro l hl
  induction hl with
  | nil => exact WellSpaced.nil
  | word c h l _ ih =>
    rw [dropTrailing_cons_nonspace h]
    exact WellSpaced.word c h _ ih
  | gap c h l _ ih =>
    rw [dropTrailing_cons_nonspace h] at ih
    rw [dropTrailing_cons_cons spaceChar (c :: l) c (dropTrailingWs l)
      (dropTrailing_cons_nonspace h l)]
    exact WellSpaced.gap c h _ ih
  | lone => simp [dropTrailingWs, pyIsSpace_spaceChar]; exact WellSpaced.nil

/-- The head of `dropWhile pyIsSpace` is not whitespace. -/
theorem dropWhile_head_false : ∀ (l : List Char) (c : Char) (t : List Char),
    l.dropWhile pyIsSpace = c :: t → pyIsSpace c = false := by
  intro l
  induction l with
  | nil => intro c t h; simp [List.dropWhile] at h
  | cons x r ih =>
    intro c t h
    cases hx : pyIsSpace x with
    | true =>
      rw [List.dropWhile_cons_of_pos hx] at h
      exact ih c t h
    | false =>
      rw [List.dropWhile_cons_of_neg (by simp [hx])] at h
      cases h
      exact hx

/-- `dropTrailingWs` preserves the head of its argument. -/
theorem dropTrailing_head : ∀ (l : List Char) (c : Char) (t : List Char),
    dropTrailingWs l = c :: t → l.head? = some c := by
  intro l c t h
  cases l with
  | nil => simp [dropTrailingWs] at h
  | cons x r =>
    cases h' : dropTrailingWs r with
    | nil =>
      cases hx : pyIsSpace x with
      | true => simp [dropTrailingWs, h', hx] at h
      | false =>
        simp [dropTrailingWs, h', hx] at h
        simp [h.1]
    | cons y s =>
      simp [dropTrailingWs, h'] at h
      simp [h.1]

/-- The last element of `dropTrailingWs` is not whitespace. -/
theorem dropTrailing_last : ∀ (l : List Char) (c : Char),
    (dropTrailingWs l).getLast? = some c → pyIsSpace c = false := by
  intro l
  induction l with
  | nil => intro c h; simp [dropTrailingWs] at h
  | cons x r ih =>
    intro c h
    cases h' : dropTrailingWs r with
    | nil =>
      cases hx : pyIsSpace x with
      | true => simp [dropTrailingWs, h', hx] at h
      | false =>
        simp [dropTrailingWs, h', hx] at h
        rw [← h]; exact hx
    | cons y s =>
      rw [dropTrailing_cons_cons x r y s h'] at h
      rw [List.getLast?_cons_cons] at h
      exact ih c (h' ▸ h)

/-- `dropWhile pyIsSpace` is the identity when the head is not whitespace. -/
theorem dropWhile_of_head_false (l : List Char)
    (h : ∀ c t, l = c :: t → pyIsSpace c = false) :
    l.dropWhile pyIsSpace = l := by
  cases l with
  | nil => rfl
  | cons x r => exact List.dropWhile_cons_of_neg (by simp [h x r rfl])

/-- `dropTrailingWs` is the identity when the last element is not
whitespace. -/
theorem dropTrailing_of_last_false : ∀ l : List Char,
    (∀ c, l.getLast? = some c → pyIsSpace c = false) → dropTrailingWs l = l := by
  intro l
  induction l with
  | nil => intro _; rfl
  | cons x r ih =>
    intro h
    cases r with
    | nil =>
      have hx := h x (by simp)
      simp [dropTrailingWs, hx]
    | cons y t =>
      have hr : dropTrailingWs (y :: t) = y :: t := by
        apply ih
        intro c hc
        exact h c (by rw [List.getLast?_cons_cons]; exact hc)
      exact dropTrailing_cons_cons x (y :: t) y t hr

/-- Idempotence at the character-list level. -/
theorem normChars_idem (l : List Char) : normChars (normChars l) = normChars l := by
  have hk : WellSpaced (collapseWs l false) := (collapse_wellSpaced l).1
  have hm : WellSpaced (normChars l) :=
    dropTrailing_wellSpaced _ (dropWhile_wellSpaced _ hk)
  have hmh : ∀ c t, normChars l = c :: t → pyIsSpace c = false := by
    intro c t hct
    have h1 : ((collapseWs l false).dropWhile pyIsSpace).head? = some c :=
      dropTrailing_head _ c t hct
    rcases hx : (collapseWs l false).dropWhile pyIsSpace with _ | ⟨y, s⟩
    · rw [hx] at h1; simp at h1
    · rw [hx] at h1
      simp at h1
      exact h1 ▸ dropWhile_head_false _ y s hx
  have hml : ∀ c, (normChars l).getLast? = some c → pyIsSpace c = false :=
    dropTrailing_last _
  calc normChars (normChars l)
      = stripWs (collapseWs (normChars l) false) := rfl
    _ = stripWs (normChars l) := by rw [collapse_fixpoint _ hm]
    _ = dropTrailingWs ((normChars l).dropWhile pyIsSpace) := rfl
    _ = dropTrailingWs (normChars l) := by rw [dropWhile_of_head_false _ hmh]
    _ = normChars l := dropTrailing_of_last_false _ hml

/-- C8: the text normalization `norm` of parser.py:52-53 — collapse each
whitespace run to a single space, trim both ends — is idempotent:
`norm (norm s) = norm s` for every string `s`. -/
theorem norm_idempotent : ∀ s : String, norm (norm s) = norm s := by
  intro s
  show String.mk (normChars (String.mk (normChars s.data)).data) =
    String.mk (normChars s.data)
  exact congrArg String.mk (normChars_idem s.data)

/-! Structural facts about `productFromDoc` and `parse_product`. -/

/-- A returned record never has an empty title (the parser.py:200 guard). -/
theorem productFromDoc_title (env : Env) (root : Node) (url : String)
    (p : Product) (h : productFromDoc env root url = some p) : p.title ≠ "" := by
  simp only [productFromDoc] at h
  split at h
  · simp at h
  · rename_i hne
    injection h with h
    rw [← h]
    exact hne

/-- A returned record's `link` is the url it was parsed from
(parser.py:204, `link=url`). -/
theorem productFromDoc_link (env : Env) (root : Node) (url : String)
    (p : Product) (h : productFromDoc env root url = some p) : p.link = url := by
  simp only [productFromDoc] at h
  split at h
  · simp at h
  · injection h with h
    rw [← h]

/-- A returned record's `category` is the breadcrumb extraction. -/
theorem productFromDoc_category (env : Env) (root : Node) (url : String)
    (p : Product) (h : productFromDoc env root url = some p) :
    p.category = categoryOfDoc root := by
  simp only [productFromDoc] at h
  split at h
  · simp at h
  · injection h with h
    rw [← h]

/-- One JSON-LD block never overwrites a non-empty title and never
overwrites a non-empty price (`title = title or ...`,
`price = price or ...`). -/
theorem ldStep_preserve (j : String → Option Json) (st : String × String)
    (sc : Node) :
    (st.1 ≠ "" → (ldStep j st sc).1 = st.1) ∧
      (st.2 ≠ "" → (ldStep j st sc).2 = st.2) := by
  constructor
  · intro h1
    simp only [ldStep]
    repeat' split
    all_goals simp_all
  · intro h2
    simp only [ldStep]
    repeat' split
    all_goals simp_all

/-- The whole JSON-LD fold never overwrites a non-empty title. -/
theorem ldFold_fst (j : String → Option Json) :
    ∀ (scs : List Node) (st : String × String), st.1 ≠ "" →
      (scs.foldl (ldStep j) st).1 = st.1 := by
  intro scs
  induction scs with
  | nil => intro st h; rfl
  | cons sc rest ih =>
    intro st h
    have h1 : (ldStep j st sc).1 = st.1 := (ldStep_preserve j st sc).1 h
    calc (List.foldl (ldStep j) (ldStep j st sc) rest).1
        = (ldStep j st sc).1 := ih _ (by rw [h1]; exact h)
      _ = st.1 := h1

/-- The whole JSON-LD fold never overwrites a non-empty price. -/
theorem ldFold_snd (j : String → Option Json) :
    ∀ (scs : List Node) (st : String × String), st.2 ≠ "" →
      (scs.foldl (ldStep j) st).2 = st.2 := by
  intro scs
  induction scs with
  | nil => intro st h; rfl
  | cons sc rest ih =>
    intro st h
    have h2 : (ldStep j st sc).2 = st.2 := (ldStep_preserve j st sc).2 h
    calc (List.foldl (ldStep j) (ldStep j st sc) rest).2
        = (ldStep j st sc).2 := ih _ (by rw [h2]; exact h)
      _ = st.2 := h2

/-- C6: strategy priority order is respected — whenever the structural
title cascade produced a non-empty normalized value, the emitted title
is exactly that value (the JSON-LD fallback, even when it runs because
the price is missing and even when a structured-data name is present,
assigns `title or ...` and so never replaces it); symmetrically for the
price cascade.  The structured-data value is consulted for a field only
when that field's structural strategies all came up empty. -/
theorem primary_selector_priority (env : Env) (root : Node) (url : String)
    (p : Product) (h : productFromDoc env root url = some p) :
    (titleOfDoc root ≠ "" → p.title = titleOfDoc root) ∧
      (priceOfDoc root ≠ "" → p.price = priceOfDoc root) := by
  have htp1 : titleOfDoc root ≠ "" → (finalTP env root).1 = titleOfDoc root := by
    intro ht
    simp only [finalTP]
    split
    · exact ldFold_fst env.jsonLoads (root.find ldSel)
        (titleOfDoc root, priceOfDoc root) ht
    · rfl
  have htp2 : priceOfDoc root ≠ "" → (finalTP env root).2 = priceOfDoc root := by
    intro hp
    simp only [finalTP]
    split
    · exact ldFold_snd env.jsonLoads (root.find ldSel)
        (titleOfDoc root, priceOfDoc root) hp
    · rfl
  simp only [productFromDoc] at h
  split at h
  · simp at h
  · injection h with h
    constructor
    · intro ht; rw [← h]; exact htp1 ht
    · intro hp; rw [← h]; exact htp2 hp

/-- C6 witness: on `prodDocLD` the structural title is present and a
JSON-LD block also declares a (different) name, yet the emitted title is
the structural one. -/
theorem primary_selector_priority_witness :
    ({ title := "Real Title", price := "123", link := "u", image := "",
       category := "", description := "" } : Product).title =
      titleOfDoc prodDocLD :=
  (primary_selector_priority envLD prodDocLD "u" _ (by decide)).1 (by decide)

deriving instance DecidableEq for Except

/-! Deduplication facts (claims C1, C2). -/

/-- Fold preservation of an invariant. -/
theorem foldl_preserve {α β : Type} (P : α → Prop) (f : α → β → α)
    (hf : ∀ a b, P a → P (f a b)) :
    ∀ (l : List β) (a : α), P a → P (l.foldl f a) := by
  intro l
  induction l with
  | nil => intro a h; exact h
  | cons x r ih => intro a h; exact ih (f a x) (hf a x h)

/-- `addLink` appends only hrefs not already collected, so it preserves
freedom from duplicates. -/
theorem addLink_nodup (env : Env) (acc : List String) (raw : String)
    (h : acc.Nodup) : (addLink env acc raw).Nodup := by
  simp only [addLink]
  split
  · rename_i hc
    refine List.Nodup.append h (List.nodup_singleton _) ?_
    intro a ha hb
    rcases List.mem_singleton.mp hb with rfl
    simp at hc
    exact hc.2 ha
  · exact h

/-- The per-card collection loop preserves freedom from duplicates. -/
theorem collectCardLinks_nodup (env : Env) (links : List String)
    (cards : List Node) (h : links.Nodup) :
    (collectCardLinks env links cards).Nodup := by
  simp only [collectCardLinks]
  refine foldl_preserve List.Nodup _ ?_ cards links h
  intro acc c hacc
  split
  · exact hacc
  · exact addLink_nodup env acc _ hacc

/-- The links returned by the listing cascade carry no duplicate
(the within-page dedup of parser.py:125 and parser.py:134). -/
theorem listLinks_nodup (env : Env) (root : Node) : (listLinks env root).Nodup := by
  simp only [listLinks]
  have hcascade : (LIST_SELECTORS.foldl
      (fun links sel =>
        if !links.isEmpty then links
        else if (root.find sel).isEmpty then links
        else collectCardLinks env links (root.find sel))
      []).Nodup := by
    refine foldl_preserve List.Nodup _ ?_ LIST_SELECTORS [] (List.nodup_nil)
    intro acc sel hacc
    split
    · exact hacc
    · split
      · exact hacc
      · exact collectCardLinks_nodup env acc _ hacc
  split
  · refine foldl_preserve List.Nodup _ ?_ _ _ hcascade
    intro acc a hacc
    exact addLink_nodup env acc _ hacc
  · exact hcascade

/-- Unfolding of a successful `parse_product`. -/
theorem parse_product_some (env : Env) (u : String) (p : Product)
    (h : parse_product env u = Except.ok (some p)) :
    ∃ root, env.fetch u = FetchOutcome.ok root ∧
      productFromDoc env root u = some p := by
  unfold parse_product at h
  cases hf : env.fetch u with
  | ok root =>
    rw [hf] at h
    injection h with h
    exact ⟨root, rfl, h⟩
  | fail => rw [hf] at h; simp at h
  | intr => rw [hf] at h; simp at h

/-- A successfully parsed product records the url it came from. -/
theorem parse_product_link (env : Env) (u : String) (p : Product)
    (h : parse_product env u = Except.ok (some p)) : p.link = u := by
  rcases parse_product_some env u p h with ⟨root, _, hd⟩
  exact productFromDoc_link env root u p hd

/-- The enrichment loop only appends, and the links of what it appends
form a sublist of the link list it was given. -/
theorem enrichLoop_spec (env : Env) :
    ∀ (links : List String) (items items2 : List Product),
      enrichLoop env links items = Except.ok items2 →
      ∃ ex, items2 = items ++ ex ∧ (ex.map Product.link).Sublist links := by
  intro links
  induction links with
  | nil =>
    intro items items2 h
    injection h with h
    exact ⟨[], by simp [h], List.nil_sublist _⟩
  | cons u rest ih =>
    intro items items2 h
    unfold enrichLoop at h
    cases hp : parse_product env u with
    | error e => rw [hp] at h; simp at h
    | ok po =>
      rw [hp] at h
      cases po with
      | none =>
        rcases ih items items2 h with ⟨ex, he, hs⟩
        exact ⟨ex, he, hs.cons u⟩
      | some p =>
        rcases ih (items ++ [p]) items2 h with ⟨ex, he, hs⟩
        refine ⟨p :: ex, by simpa using he, ?_⟩
        have hl : p.link = u := parse_product_link env u p hp
        simpa [hl] using hs.cons₂ p.link

/-- Every record the enrichment loop adds comes from a successfully
fetched and parsed product page. -/
theorem enrichLoop_mem (env : Env) :
    ∀ (links : List String) (items items2 : List Product),
      enrichLoop env links items = Except.ok items2 →
      ∀ p ∈ items2, p ∈ items ∨
        ∃ u root, env.fetch u = FetchOutcome.ok root ∧
          productFromDoc env root u = some p := by
  intro links
  induction links with
  | nil =>
    intro items items2 h p hp
    injection h with h
    exact Or.inl (h ▸ hp)
  | cons u rest ih =>
    intro items items2 h p hp
    unfold enrichLoop at h
    cases hq : parse_product env u with
    | error e => rw [hq] at h; simp at h
    | ok po =>
      rw [hq] at h
      cases po with
      | none => exact ih items items2 h p hp
      | some q =>
        rcases ih (items ++ [q]) items2 h p hp with hin | hnew
        · rcases List.mem_append.mp hin with hin | hq'
          · exact Or.inl hin
          · rcases List.mem_singleton.mp hq' with rfl
            rcases parse_product_some env u p hq with ⟨root, hf, hd⟩
            exact Or.inr ⟨u, root, hf, hd⟩
        · exact Or.inr hnew

/-- The loop returns immediately once the page URL is exhausted. -/
theorem crawlLoop_none (env : Env) (fuel page : Nat) (seen : List String)
    (items : List Product) (visited : List String) :
    crawlLoop env fuel page none seen items visited =
      some (Except.ok (items, visited)) := by
  cases fuel <;> rfl

/-- The links of a successfully parsed listing page carry no duplicate. -/
theorem parse_list_nodup (env : Env) (u : String) (links : List String)
    (next : Option String) (h : parse_list env u = Except.ok (links, next)) :
    links.Nodup := by
  unfold parse_list at h
  cases hf : env.fetch u with
  | ok root =>
    rw [hf] at h
    injection h with h
    have : links = listLinks env root := by
      have := congrArg Prod.fst h
      simpa using this.symm
    rw [this]
    exact listLinks_nodup env root
  | fail =>
    rw [hf] at h
    injection h with h
    have : links = [] := by
      have := congrArg Prod.fst h
      simpa using this.symm
    simp [this]
  | intr => rw [hf] at h; simp at h

/-- Generalised dedup invariant of the page loop: if the accumulated
records have pairwise distinct links, all of them registered in the
seen set, then the final records still have pairwise distinct links. -/
theorem crawlLoop_nodup (env : Env) :
    ∀ (fuel page : Nat) (pu : Option String) (seen : List String)
      (items : List Product) (visited : List String) (ps : List Product)
      (vis : List String),
      (items.map Product.link).Nodup →
      (∀ p ∈ items, p.link ∈ seen) →
      crawlLoop env fuel page pu seen items visited =
        some (Except.ok (ps, vis)) →
      (ps.map Product.link).Nodup := by
  intro fuel
  induction fuel with
  | zero =>
    intro page pu seen items visited ps vis hnd hsub h
    cases pu with
    | none =>
      rw [crawlLoop_none] at h
      simp at h
      rw [← h.1]
      exact hnd
    | some u => simp [crawlLoop] at h
  | succ fuel ih =>
    intro page pu seen items visited ps vis hnd hsub h
    cases pu with
    | none =>
      rw [crawlLoop_none] at h
      simp at h
      rw [← h.1]
      exact hnd
    | some pageUrl =>
      simp only [crawlLoop] at h
      split at h
      · simp at h
        rw [← h.1]
        exact hnd
      · split at h
        · simp at h
        · rename_i links next hpl
          split at h
          · simp at h
            rw [← h.1]
            exact hnd
          · split at h
            · simp at h
            · rename_i items2 henr
              split at h
              · rename_i hguard
                simp [MAX_PAGES] at hguard
              · rcases enrichLoop_spec env _ items items2 henr with ⟨ex, rfl, hsl⟩
                have hlinksnd : links.Nodup := parse_list_nodup env pageUrl links next hpl
                have hnewnd : (links.filter (fun u => !(seen.contains u))).Nodup :=
                  hlinksnd.filter _
                have hexnd : (ex.map Product.link).Nodup :=
                  hnewnd.sublist hsl
                have hnewnotseen : ∀ u ∈ links.filter (fun u => !(seen.contains u)),
                    u ∉ seen := by
                  intro u hu hus
                  have := (List.mem_filter.mp hu).2
                  simp at this
                  exact this hus
                have hnd2 : ((items ++ ex).map Product.link).Nodup := by
                  rw [List.map_append]
                  refine List.Nodup.append hnd hexnd ?_
                  intro a ha hb
                  rcases List.mem_map.mp ha with ⟨p, hp, rfl⟩
                  rcases List.mem_map.mp hb with ⟨q, hq, hpq⟩
                  have haseen : p.link ∈ seen := hsub p hp
                  have hanew : q.link ∈ links.filter (fun u => !(seen.contains u)) :=
                    hsl.subset (List.mem_map_of_mem Product.link hq)
                  exact hnewnotseen q.link hanew (hpq ▸ haseen)
                have hsub2 : ∀ p ∈ items ++ ex,
                    p.link ∈ seen ++ links.filter (fun u => !(seen.contains u)) := by
                  intro p hp
                  rcases List.mem_append.mp hp with hin | hex
                  · exact List.mem_append.mpr (Or.inl (hsub p hin))
                  · exact List.mem_append.mpr
                      (Or.inr (hsl.subset (List.mem_map_of_mem Product.link hex)))
                exact ih (page + 1) next _ _ _ ps vis hnd2 hsub2 h

/-- Every record a terminating crawl accumulates beyond its initial
state comes from a successfully fetched and parsed product page. -/
theorem crawlLoop_mem (env : Env) :
    ∀ (fuel page : Nat) (pu : Option String) (seen : List String)
      (items : List Product) (visited : List String) (ps : List Product)
      (vis : List String),
      crawlLoop env fuel page pu seen items visited =
        some (Except.ok (ps, vis)) →
      ∀ p ∈ ps, p ∈ items ∨
        ∃ u root, env.fetch u = FetchOutcome.ok root ∧
          productFromDoc env root u = some p := by
  intro fuel
  induction fuel with
  | zero =>
    intro page pu seen items visited ps vis h p hp
    cases pu with
    | none =>
      rw [crawlLoop_none] at h
      simp at h
      exact Or.inl (h.1 ▸ hp)
    | some u => simp [crawlLoop] at h
  | succ fuel ih =>
    intro page pu seen items visited ps vis h p hp
    cases pu with
    | none =>
      rw [crawlLoop_none] at h
      simp at h
      exact Or.inl (h.1 ▸ hp)
    | some pageUrl =>
      simp only [crawlLoop] at h
      split at h
      · simp at h
        exact Or.inl (h.1 ▸ hp)
      · split at h
        · simp at h
        · rename_i links next hpl
          split at h
          · simp at h
            exact Or.inl (h.1 ▸ hp)
          · split at h
            · simp at h
            · rename_i items2 henr
              split at h
              · rename_i hguard
                simp [MAX_PAGES] at hguard
              · rcases ih (page + 1) next _ _ _ ps vis h p hp with hin | hnew
                · exact enrichLoop_mem env _ items items2 henr p hin
                · exact Or.inr hnew

/-- C1: every record emitted by `crawl` (the list `main` persists) has a
non-empty title — `parse_product` returns `None` after the parser.py:200
guard whenever no strategy produced a title, `crawl` appends only
non-`None` results and moves on to the next item, so a title-less
product is never emitted. -/
theorem emitted_title_nonempty (env : Env) (fuel : Nat) (ps : List Product)
    (vis : List String) (h : crawl env fuel = some (Except.ok (ps, vis))) :
    ∀ p ∈ ps, p.title ≠ "" := by
  intro p hp
  rcases crawlLoop_mem env fuel 1 _ [] [] [] ps vis h p hp with hin | ⟨u, root, _, hd⟩
  · simp at hin
  · exact productFromDoc_title env root u p hd

/-- C1 witness: the record collected by the crawl in `envW` has a
non-empty title. -/
theorem emitted_title_nonempty_witness : productW.title ≠ "" :=
  emitted_title_nonempty envW 2 [productW] [pageUrl1] (by decide) productW
    (by simp)

/-- C2: no two records emitted by one crawl share a link — a URL already
in the global seen set is dropped before enrichment (parser.py:223), the
per-page lists are internally deduplicated (parser.py:125, 134), every
processed URL enters the seen set before its page is enriched, and each
record's `link` is exactly the URL it was enriched from, so every
normalized absolute URL yields at most one record even across pages or
a looping next link. -/
theorem emitted_links_nodup (env : Env) (fuel : Nat) (ps : List Product)
    (vis : List String) (h : crawl env fuel = some (Except.ok (ps, vis))) :
    (ps.map Product.link).Nodup :=
  crawlLoop_nodup env fuel 1 _ [] [] [] ps vis (by simp) (by simp) h

/-- C2 witness: the links of the records collected in `envW` are
pairwise distinct. -/
theorem emitted_links_nodup_witness : ([productW].map Product.link).Nodup :=
  emitted_links_nodup envW 2 [productW] [pageUrl1] (by decide)

/-- C7: pagination termination — when a fetched listing document has no
next-page control (neither the `a[rel="next"]` query nor the
`.pagination-next a, .next a` query matches anything), `parse_list`
returns `nextPageURL = None`, and the crawl loop, after processing that
page's items, terminates without attempting any further page fetch: the
fetched-listing-URL trace ends at that page. -/
theorem no_next_terminates (env : Env) (url : String) (root : Node)
    (hf : env.fetch url = FetchOutcome.ok root)
    (hn1 : root.find "a[rel=\x22next\x22]" = [])
    (hn2 : root.find ".pagination-next a, .next a" = []) :
    parse_list env url = Except.ok (listLinks env root, none) ∧
      ∀ (fuel page : Nat) (seen : List String) (items : List Product)
        (visited : List String) (items2 : List Product),
        url ≠ "" →
        enrichLoop env ((listLinks env root).filter (fun u => !(seen.contains u)))
          items = Except.ok items2 →
        crawlLoop env (fuel + 1) page (some url) seen items visited =
          some (Except.ok
            ((if (listLinks env root).isEmpty then items else items2),
              visited ++ [url])) := by
  have hpl : parse_list env url = Except.ok (listLinks env root, none) := by
    unfold parse_list
    rw [hf]
    simp [nextUrlOfDoc, Node.findFirst, hn1, hn2, pyOr]
  refine ⟨hpl, ?_⟩
  intro fuel page seen items visited items2 hurl henr
  simp only [crawlLoop]
  rw [if_neg hurl, hpl]
  by_cases he : (listLinks env root).isEmpty
  · simp [he]
  · simp only [he, if_false, Bool.false_eq_true]
    rw [henr]
    simp [MAX_PAGES, crawlLoop_none]

/-- C7 witness: the single listing page of `envW` has no next control;
the crawl fetches it, enriches its one item, and terminates having
fetched no other listing URL. -/
theorem no_next_terminates_witness :
    parse_list envW pageUrl1 = Except.ok (listLinks envW listDocW, none) ∧
      crawlLoop envW 1 1 (some pageUrl1) [] [] [] =
        some (Except.ok ([productW], [pageUrl1])) := by
  have h := no_next_terminates envW pageUrl1 listDocW rfl rfl rfl
  refine ⟨h.1, ?_⟩
  have h2 := h.2 0 1 [] [] [] [productW] (by decide) (by decide)
  have he : (if (listLinks envW listDocW).isEmpty then ([] : List Product)
      else [productW]) = [productW] := by decide
  rw [he] at h2
  simpa using h2

/-- C10: `main` writes the two output files if and only if the crawl
collected at least one record — with records it writes both `output.csv`
and `output.xlsx` from exactly the collected rows, with zero records it
only prints the empty message and creates neither file
(parser.py:249-255). -/
theorem files_written_iff_records (env : Env) (fuel : Nat) (ps : List Product)
    (vis : List String) (h : crawl env fuel = some (Except.ok (ps, vis))) :
    (mainModel env fuel).map writesCsv = some (!ps.isEmpty) ∧
      (mainModel env fuel).map writesXlsx = some (!ps.isEmpty) ∧
      (ps ≠ [] → mainModel env fuel = some (MainResult.saved ps)) ∧
      (ps = [] → mainModel env fuel = some MainResult.nothingSaved) := by
  unfold mainModel
  rw [h]
  by_cases he : ps.isEmpty
  · have : ps = [] := List.isEmpty_iff.mp he
    subst this
    simp [writesCsv, writesXlsx]
  · simp only [he, if_false, Bool.false_eq_true]
    have hne : ps ≠ [] := by
      intro hc; subst hc; simp at he
    simp [writesCsv, writesXlsx, he, hne]

/-- C10 witness: in `envEmpty` the crawl completes with zero records and
neither output file is written; in `envW` it completes with one record
and both files are written from it. -/
theorem files_written_iff_records_witness :
    (mainModel envEmpty 2).map writesCsv = some false ∧
      mainModel envEmpty 2 = some MainResult.nothingSaved ∧
      mainModel envW 2 = some (MainResult.saved [productW]) := by
  have h0 := files_written_iff_records envEmpty 2 [] [pageUrl1] (by decide)
  have h1 := files_written_iff_records envW 2 [productW] [pageUrl1] (by decide)
  exact ⟨h0.1, h0.2.2.2 rfl, h1.2.2.1 (by simp)⟩

/-- C4 counterexample: in `envI` page 1's enrichment completes and merges
one record (`enrichLoop` returns `[productW]`), then the external
interrupt arrives at the page-2 fetch; the claim says the merged record
is still written to the output files, but the interrupt propagates out
of `crawl` (nothing in parser.py catches a `KeyboardInterrupt`), `main`
crashes before reaching the save branch, neither `output.csv` nor
`output.xlsx` is written, and no count is reported. -/
theorem interrupt_discards_records :
    enrichLoop envI [linkW] [] = Except.ok [productW] ∧
      crawl envI 3 = some (Except.error ()) ∧
      mainModel envI 3 = some MainResult.crashed ∧
      writesCsv MainResult.crashed = false ∧
      writesXlsx MainResult.crashed = false :=
  ⟨by decide, by decide, by decide, rfl, rfl⟩

/-- C4 amended: there is no interrupt handling — an external interrupt
mid-crawl propagates out of `crawl` and `main` uncaught, so none of the
already-merged records is written and nothing is reported; accumulated
records are persisted only when the page loop exits normally: a fetch
failure on a listing page ends the loop normally with everything
gathered so far (parser.py:219-221), and on any normal exit with a
non-empty record list `main` writes all accumulated records. -/
theorem persistence_behavior :
    (∀ (env : Env) (fuel : Nat) (u : Unit),
        crawl env fuel = some (Except.error u) →
        mainModel env fuel = some MainResult.crashed ∧
          writesCsv MainResult.crashed = false ∧
          writesXlsx MainResult.crashed = false) ∧
      (∀ (env : Env) (fuel page : Nat) (pageUrl : String) (seen : List String)
          (items : List Product) (visited : List String),
          pageUrl ≠ "" → env.fetch pageUrl = FetchOutcome.fail →
          crawlLoop env (fuel + 1) page (some pageUrl) seen items visited =
            some (Except.ok (items, visited ++ [pageUrl]))) ∧
      (∀ (env : Env) (fuel : Nat) (ps : List Product) (vis : List String),
          crawl env fuel = some (Except.ok (ps, vis)) → ps ≠ [] →
          mainModel env fuel = some (MainResult.saved ps)) := by
  refine ⟨?_, ?_, ?_⟩
  · intro env fuel u h
    unfold mainModel
    rw [h]
    exact ⟨rfl, rfl, rfl⟩
  · intro env fuel page pageUrl seen items visited hurl hfail
    simp only [crawlLoop]
    rw [if_neg hurl]
    have hpl : parse_list env pageUrl = Except.ok ([], none) := by
      unfold parse_list
      rw [hfail]
    rw [hpl]
    simp
  · intro env fuel ps vis h hne
    unfold mainModel
    rw [h]
    simp [hne]

/-- C4 amended witness: the interrupted crawl of `envI` crashes `main`
with nothing written; a listing fetch failure (`envEmpty`) ends the loop
normally preserving the accumulated items; the normally terminating
crawl of `envW` has its record written. -/
theorem persistence_behavior_witness :
    mainModel envI 3 = some MainResult.crashed ∧
      crawlLoop envEmpty 1 1 (some pageUrl1) [] [productW] [] =
        some (Except.ok ([productW], [pageUrl1])) ∧
      mainModel envW 2 = some (MainResult.saved [productW]) := by
  refine ⟨(persistence_behavior.1 envI 3 () (by decide)).1, ?_,
    persistence_behavior.2.2 envW 2 [productW] [pageUrl1] (by decide) (by simp)⟩
  have h := persistence_behavior.2.1 envEmpty 0 1 pageUrl1 [] [productW] []
    (by decide) rfl
  simpa using h

/-- A transport whose every attempt completes with status 404. -/
def tr404 : Nat → Attempt := fun _ => Attempt.resp 404 "x"

/-- A transport whose every attempt raises an exception. -/
def trAllExc : Nat → Attempt := fun _ => Attempt.exc

/-- C3 counterexample: a URL whose response status is constantly 404
(a 4xx) is not treated as a non-retryable terminal failure: `render`
performs all `RETRIES = 3` transport attempts (the claim allows exactly
one), because a completed response only short-circuits the loop when
`status == 200 and html` holds, and then returns `None`. -/
theorem render_retries_on_404 :
    (renderModel tr404).gets = 3 ∧ ¬ (renderModel tr404).gets ≤ 1 ∧
      (renderModel tr404).result = none :=
  ⟨by decide, by decide, by decide⟩

/-- Generalised trace facts about the retry loop of `render`. -/
theorem renderGo_spec (tr : Nat → Attempt) :
    ∀ (remaining attempt gets : Nat) (sleeps : List Nat),
      (renderGo tr attempt remaining gets sleeps).gets ≤ gets + remaining ∧
        (∀ a, (renderGo tr attempt remaining gets sleeps).result = some a →
          attempt ≤ a ∧ a < attempt + remaining ∧ attemptOk (tr a) = true) ∧
        ((∀ a, attempt ≤ a → a < attempt + remaining → attemptOk (tr a) = false) →
          (renderGo tr attempt remaining gets sleeps).result = none ∧
            (renderGo tr attempt remaining gets sleeps).gets = gets + remaining) ∧
        (∀ a, a ∈ (renderGo tr attempt remaining gets sleeps).sleeps →
          a ∈ sleeps ∨ tr a = Attempt.exc) := by
  intro remaining
  induction remaining with
  | zero =>
    intro attempt gets sleeps
    refine ⟨le_refl _, ?_, fun _ => ⟨rfl, rfl⟩, fun a ha => Or.inl ha⟩
    intro a ha
    simp [renderGo] at ha
  | succ rem ih =>
    intro attempt gets sleeps
    cases htr : tr attempt with
    | exc =>
      have hunf : renderGo tr attempt (rem + 1) gets sleeps =
          renderGo tr (attempt + 1) rem (gets + 1) (sleeps ++ [attempt]) := by
        simp only [renderGo, htr]
      rw [hunf]
      rcases ih (attempt + 1) (gets + 1) (sleeps ++ [attempt]) with
        ⟨ihg, ihr, ihn, ihs⟩
      refine ⟨by omega, ?_, ?_, ?_⟩
      · intro a ha
        rcases ihr a ha with ⟨h1, h2, h3⟩
        exact ⟨by omega, by omega, h3⟩
      · intro hall
        have := ihn (fun a h1 h2 => hall a (by omega) (by omega))
        exact ⟨this.1, by omega⟩
      · intro a ha
        rcases ihs a ha with hin | hexc
        · rcases List.mem_append.mp hin with hs | hone
          · exact Or.inl hs
          · rcases List.mem_singleton.mp hone with rfl
            exact Or.inr htr
        · exact Or.inr hexc
    | resp status html =>
      by_cases hok : (status == 200 && !(html == "")) = true
      · have hunf : renderGo tr attempt (rem + 1) gets sleeps =
            ⟨some attempt, gets + 1, sleeps⟩ := by
          simp only [renderGo, htr]
          rw [if_pos hok]
        rw [hunf]
        refine ⟨by simp, ?_, ?_, fun a ha => Or.inl ha⟩
        · intro a ha
          simp only at ha
          injection ha with ha
          subst ha
          refine ⟨le_refl _, by omega, ?_⟩
          rw [htr]
          simpa [attemptOk] using hok
        · intro hall
          have := hall attempt (le_refl _) (by omega)
          rw [htr] at this
          simp only [attemptOk] at this
          rw [this] at hok
          simp at hok
      · have hunf : renderGo tr attempt (rem + 1) gets sleeps =
            renderGo tr (attempt + 1) rem (gets + 1) sleeps := by
          simp only [renderGo, htr]
          rw [if_neg hok]
        rw [hunf]
        rcases ih (attempt + 1) (gets + 1) sleeps with ⟨ihg, ihr, ihn, ihs⟩
        refine ⟨by omega, ?_, ?_, ihs⟩
        · intro a ha
          rcases ihr a ha with ⟨h1, h2, h3⟩
          exact ⟨by omega, by omega, h3⟩
        · intro hall
          have := ihn (fun a h1 h2 => hall a (by omega) (by omega))
          exact ⟨this.1, by omega⟩

/-- C3 amended: `render` distinguishes failures only by whether an
exception was raised, not by status class — each raised exception
(timeout, connection reset, ...) sleeps the linearly increasing backoff
`1.2 * attempt` and retries; each completed response that is not
status 200 with non-empty rendered html — 4xx exactly like 5xx — is
retried immediately with no backoff sleep; at most `RETRIES = 3`
transport attempts are made in total, a response is returned only for an
attempt passing the 200-and-html check, and when every attempt fails
the loop exhausts all `RETRIES` attempts (also for 4xx) and returns
`None`. -/
theorem render_retry_behavior (tr : Nat → Attempt) :
    (renderModel tr).gets ≤ RETRIES ∧
      (∀ a, (renderModel tr).result = some a →
        1 ≤ a ∧ a ≤ RETRIES ∧ attemptOk (tr a) = true) ∧
      ((∀ a, 1 ≤ a → a ≤ RETRIES → attemptOk (tr a) = false) →
        (renderModel tr).result = none ∧ (renderModel tr).gets = RETRIES) ∧
      (∀ a, a ∈ (renderModel tr).sleeps → tr a = Attempt.exc) := by
  rcases renderGo_spec tr RETRIES 1 0 [] with ⟨hg, hr, hn, hs⟩
  refine ⟨by simpa [renderModel] using hg, ?_, ?_, ?_⟩
  · intro a ha
    rcases hr a ha with ⟨h1, h2, h3⟩
    exact ⟨h1, by simp [RETRIES] at h2 ⊢; omega, h3⟩
  · intro hall
    have := hn (fun a h1 h2 => hall a h1 (by simp [RETRIES] at h2 ⊢; omega))
    simpa [renderModel] using this
  · intro a ha
    rcases hs a ha with hin | hexc
    · simp at hin
    · exact hexc

/-- C3 amended witness: a transport that always raises gets all three
attempts, each followed by its backoff sleep, and `render` returns
`None`; the sleeps happened exactly after exception attempts. -/
theorem render_retry_behavior_witness :
    (renderModel trAllExc).result = none ∧
      (renderModel trAllExc).gets = RETRIES := by
  have h := render_retry_behavior trAllExc
  exact h.2.2.1 (fun a h1 h2 => rfl)

/-- C5 counterexample: on a product page whose breadcrumb trail is
Home > A > B > Product, the claim predicts the category "A > B" (the
join of both intermediate segments); the code takes `crumbs[-2]` only
and emits the single segment "B". -/
theorem category_not_joined :
    (productFromDoc envX rootC5 "u").map Product.category = some "B" ∧
      ¬ (productFromDoc envX rootC5 "u").map Product.category = some "A > B" :=
  ⟨by decide, by decide⟩

/-- C5 amended: for a product page whose breadcrumb query matches at
least two crumbs, the extracted category is the normalized text of the
second-to-last crumb alone (`crumbs[-2]`, the immediate parent) — not
the join of all segments strictly between the home crumb and the
product crumb; a trail Home > A > B > Product therefore yields "B",
dropping "A". -/
theorem category_second_to_last (env : Env) (root : Node) (url : String)
    (p : Product) (cs : List Node) (hcs : root.find crumbSel = cs)
    (h2 : 2 ≤ cs.length) (hp : productFromDoc env root url = some p) :
    p.category = norm ((cs.get ⟨cs.length - 2, by omega⟩).text) := by
  rw [productFromDoc_category env root url p hp]
  simp only [categoryOfDoc, hcs]
  have hne : cs.isEmpty = false := by
    cases cs with
    | nil => simp at h2
    | cons a t => rfl
  rw [hne]
  simp only [Bool.false_eq_true, if_false, if_pos h2]
  rw [List.getElem?_eq_getElem (by omega)]
  simp [List.get_eq_getElem]

/-- C5 amended witness: on the concrete four-crumb trail the emitted
category is the second-to-last crumb's text. -/
theorem category_second_to_last_witness :
    ({ title := "T", price := "", link := "u", image := "", category := "B",
       description := "" } : Product).category =
      norm ((([leafNode "Home" [], leafNode "A" [], leafNode "B" [],
        leafNode "Product" []] : List Node).get ⟨2, by decide⟩).text) :=
  category_second_to_last envX rootC5 "u" _
    [leafNode "Home" [], leafNode "A" [], leafNode "B" [], leafNode "Product" []]
    rfl (by decide) (by decide)

/-- C9: when the breadcrumb query matches exactly one crumb, the emitted
category is that sole crumb's normalized text itself (`crumbs[-1]`) —
the code applies no exclude-home or exclude-leaf rule to single-crumb
trails, so the crumb may well be the home crumb or the product's own
name. -/
theorem single_crumb_category (env : Env) (root : Node) (url : String)
    (p : Product) (c : Node) (hcs : root.find crumbSel = [c])
    (hp : productFromDoc env root url = some p) :
    p.category = norm c.text := by
  rw [productFromDoc_category env root url p hp]
  unfold categoryOfDoc
  rw [hcs]
  rfl

/-- C9 witness: with the single crumb "Solo" the emitted category is
"Solo" itself. -/
theorem single_crumb_category_witness :
    ({ title := "T", price := "", link := "u", image := "", category := "Solo",
       description := "" } : Product).category = norm (leafNode "Solo" []).text :=
  single_crumb_category envX rootC9 "u" _ (leafNode "Solo" []) rfl (by decide)

end Scraper
